import Mathlib

/-!
Verification of the binary resolution and provisioning workflow of the Dhall
language-server extension (`src/language_server.rs`,
`DhallLanguageServer::language_server_binary_path`).

The Rust function is shallowly embedded as a pure Lean function over an
explicit environment record.  The environment captures every external
capability the code consults, in the order the code consults it:

* `whichResult` — outcome of `worktree.which(binary_name)`;
* `releaseResult` — outcome of `zed::latest_github_release(...)`;
* `downloadResult` — outcome of `zed::download_file(...)`;
* `tarResult` — outcome of spawning `tar -xf <archive>` (`.error e` models a
  launch failure whose debug rendering is `e`; `.ok st` models a completed
  process with exit status `st`);
* `readDirError` / `entryLoadError` — failures of `fs::read_dir(".")` and of
  loading an individual directory entry;
* `removeFails` — whether `fs::remove_dir_all` fails on a given entry (the
  code discards this result with `.ok()`);
* `fsAfterDownload` / `fsAfterTar` — how a successful download (resp. tar
  extraction) transforms the filesystem; these are external effects of the
  network payload and archive contents, so they are left abstract.

The filesystem is a predicate `isFile` (what `fs::metadata(p)` reports as a
regular file) together with the list of entries of the working directory
(what `fs::read_dir(".")` yields).  The function returns the `Result` value,
the ordered trace of observable events (status notifications, the release
fetch, the download, the tar invocation, directory listing and removals),
the new cached path (`self.cached_binary_path`) and the new filesystem.
-/

set_option maxRecDepth 8192

inductive Os
  | mac
  | linux
  | windows
deriving DecidableEq

inductive Architecture
  | aarch64
  | x86
  | x8664
deriving DecidableEq

/-- Debug rendering of `zed::Os`, as produced by the `{platform:?}` format. -/
def osDebug : Os → String
  | .mac => "Mac"
  | .linux => "Linux"
  | .windows => "Windows"

/-- Debug rendering of `zed::Architecture`, as produced by `{arch:?}`. -/
def archDebug : Architecture → String
  | .aarch64 => "Aarch64"
  | .x86 => "X86"
  | .x8664 => "X8664"

structure GithubReleaseAsset where
  name : String
  download_url : String
deriving DecidableEq

structure GithubRelease where
  version : String
  assets : List GithubReleaseAsset
deriving DecidableEq

inductive DownloadedFileType
  | uncompressed
  | zip
deriving DecidableEq

inductive LanguageServerInstallationStatus
  | checkingForUpdate
  | downloading
deriving DecidableEq

/-- Exit outcome of a completed external process: `success` models
`ExitStatus::success()` and `debugRepr` its `{exit_status:?}` rendering. -/
structure ExitStatus where
  success : Bool
  debugRepr : String
deriving DecidableEq

/-- Observable events of one resolution call, in program order. -/
inductive Event
  | setStatus (s : LanguageServerInstallationStatus)
  | fetchRelease
  | download (url : String) (dir : String) (t : DownloadedFileType)
  | tar (archive : String)
  | readDir
  | removeDirAll (entry : String)
deriving DecidableEq

/-- The filesystem as the resolver observes it. -/
structure FS where
  isFile : String → Bool
  entries : List String

structure Env where
  platform : Os
  arch : Architecture
  whichResult : Option String
  releaseResult : Except String GithubRelease
  downloadResult : Except String Unit
  tarResult : Except String ExitStatus
  readDirError : Option String
  entryLoadError : String → Option String
  removeFails : String → Bool
  fsAfterDownload : FS → FS
  fsAfterTar : FS → FS

structure ResolveOut where
  result : Except String String
  events : List Event
  cache : Option String
  fs : FS

/-- Binary name chosen by the code: `dhall-lsp-server.exe` on Windows,
`dhall-lsp-server` otherwise. -/
def binaryName : Os → String
  | .windows => "dhall-lsp-server.exe"
  | _ => "dhall-lsp-server"

/-- The `match (platform, arch)` table of the code: asset filename suffix and
`DownloadedFileType` for each supported pair, `none` for unsupported pairs. -/
def platformSuffix : Os → Architecture → Option (String × DownloadedFileType)
  | .mac, .aarch64 => some ("aarch64-darwin.tar.bz2", .uncompressed)
  | .mac, .x8664 => some ("x86_64-darwin.tar.bz2", .uncompressed)
  | .linux, .x8664 => some ("x86_64-linux.tar.bz2", .uncompressed)
  | .windows, .x8664 => some ("x86_64-windows.zip", .zip)
  | _, _ => none

/-- The error text of the unsupported-platform branch. -/
def unsupportedMsg (p : Os) (a : Architecture) : String :=
  "unsupported platform/arch combination: " ++ osDebug p ++ "/" ++ archDebug a

/-- `str::starts_with`, stated on the character lists of the strings. -/
def strStartsWith (s pre : String) : Bool :=
  pre.data.isPrefixOf s.data

/-- `str::ends_with`, stated on the character lists of the strings. -/
def strEndsWith (s suf : String) : Bool :=
  suf.data.isSuffixOf s.data

/-- Asset selection: `release.assets.iter().find(|asset| starts_with
"dhall-lsp-server" && ends_with file_suffix)`. -/
def findAsset (assets : List GithubReleaseAsset) (fileSuffix : String) :
    Option GithubReleaseAsset :=
  assets.find? fun asset =>
    strStartsWith asset.name "dhall-lsp-server" && strEndsWith asset.name fileSuffix

/-- `version_dir = format!("dhall-haskell-{}", release.version)`. -/
def versionDirOf (version : String) : String :=
  "dhall-haskell-" ++ version

/-- `binary_path = format!("{version_dir}/bin/{binary_name}")`. -/
def binaryPathOf (version : String) (platform : Os) : String :=
  versionDirOf version ++ "/bin/" ++ binaryName platform

/-- Effect of `fs::remove_dir_all` succeeding on working-directory entry `e`:
the entry disappears from the listing and every path at or below it stops
being a regular file. -/
def removeEffect (fs : FS) (e : String) : FS where
  isFile p := if p = e ∨ (e ++ "/").isPrefixOf p then false else fs.isFile p
  entries := fs.entries.filter fun x => x != e

structure SweepOut where
  result : Except String Unit
  events : List Event
  fs : FS

/-- The cleanup loop `for entry in entries { ... }`: each entry is loaded
(a load failure is propagated by the `?`), entries named `version_dir` are
kept, every other entry gets a `remove_dir_all` attempt whose failure is
discarded by `.ok()`. -/
def sweep (env : Env) (vd : String) : List String → FS → SweepOut
  | [], fs => ⟨.ok (), [], fs⟩
  | e :: rest, fs =>
    match env.entryLoadError e with
    | some msg => ⟨.error ("failed to load directory entry " ++ msg), [], fs⟩
    | none =>
      if e = vd then
        sweep env vd rest fs
      else
        let fs1 := if env.removeFails e then fs else removeEffect fs e
        let out := sweep env vd rest fs1
        ⟨out.result, Event.removeDirAll e :: out.events, out.fs⟩

/-- `fs::read_dir(".")` followed by the cleanup loop; a listing failure is
fatal with the documented message. -/
def cleanupPass (env : Env) (vd : String) (fs : FS) : SweepOut :=
  match env.readDirError with
  | some e => ⟨.error ("failed to list working directory " ++ e), [Event.readDir], fs⟩
  | none =>
    let out := sweep env vd fs.entries fs
    ⟨out.result, Event.readDir :: out.events, out.fs⟩

/-- Prepend already-emitted events to the outcome of a later stage. -/
def withEvents (pre : List Event) (out : ResolveOut) : ResolveOut :=
  ⟨out.result, pre ++ out.events, out.cache, out.fs⟩

/-- Tail of a fresh install: run the cleanup pass, then set the cache and
return the binary path (the code sets `self.cached_binary_path` only after
the cleanup loop completed without a propagated error). -/
def finishInstall (env : Env) (fs : FS) (cache : Option String)
    (binaryPath vd : String) : ResolveOut :=
  match cleanupPass env vd fs with
  | ⟨.error e, evs, fs2⟩ => ⟨.error e, evs, cache, fs2⟩
  | ⟨.ok _, evs, fs2⟩ => ⟨.ok binaryPath, evs, some binaryPath, fs2⟩

/-- The download / decompress / cleanup section, entered when the expected
binary path is not already a regular file (events of the `Downloading` status
and of the download itself are emitted by the caller). -/
def install (env : Env) (fs : FS) (cache : Option String)
    (binaryPath vd downloadPath : String) (dt : DownloadedFileType) : ResolveOut :=
  match env.downloadResult with
  | .error e => ⟨.error ("failed to download file: " ++ e), [], cache, fs⟩
  | .ok _ =>
    match dt with
    | .zip => finishInstall env (env.fsAfterDownload fs) cache binaryPath vd
    | .uncompressed =>
      match env.tarResult with
      | .error e =>
        ⟨.error ("failed to decompress " ++ downloadPath ++ ": " ++ e),
          [Event.tar downloadPath], cache, env.fsAfterDownload fs⟩
      | .ok st =>
        if st.success then
          withEvents [Event.tar downloadPath]
            (finishInstall env (env.fsAfterTar (env.fsAfterDownload fs)) cache
              binaryPath vd)
        else
          ⟨.error ("failed to decompress " ++ downloadPath ++ ": status " ++ st.debugRepr),
            [Event.tar downloadPath], cache, env.fsAfterDownload fs⟩

/-- Filesystem after a completed download-plus-decompression, for statement
convenience (matches how `install` threads the filesystem on success). -/
def installFS (env : Env) (fs : FS) : DownloadedFileType → FS
  | .zip => env.fsAfterDownload fs
  | .uncompressed => env.fsAfterTar (env.fsAfterDownload fs)

/-- Decompression events of a completed install, by download kind. -/
def tarPre : DownloadedFileType → String → List Event
  | .uncompressed, downloadPath => [Event.tar downloadPath]
  | .zip, _ => []

/-- Everything after `latest_github_release` returned: platform mapping,
asset selection, path computation, idempotence check, and (if needed) the
download/decompress/cleanup section. -/
def afterFetch (env : Env) (fs : FS) (cache : Option String) (binName : String) :
    ResolveOut :=
  match env.releaseResult with
  | .error e => ⟨.error e, [], cache, fs⟩
  | .ok release =>
    match platformSuffix env.platform env.arch with
    | none => ⟨.error (unsupportedMsg env.platform env.arch), [], cache, fs⟩
    | some (fileSuffix, downloadType) =>
      match findAsset release.assets fileSuffix with
      | none =>
        ⟨.error ("no asset found matching dhall-lsp-server-*-" ++ fileSuffix),
          [], cache, fs⟩
      | some asset =>
        if fs.isFile (versionDirOf release.version ++ "/bin/" ++ binName) then
          ⟨.ok (versionDirOf release.version ++ "/bin/" ++ binName), [],
            some (versionDirOf release.version ++ "/bin/" ++ binName), fs⟩
        else
          withEvents
            [Event.setStatus .downloading,
              Event.download asset.download_url (versionDirOf release.version)
                downloadType]
            (install env fs cache
              (versionDirOf release.version ++ "/bin/" ++ binName)
              (versionDirOf release.version)
              (versionDirOf release.version ++ "/" ++ asset.name) downloadType)

/-- The provisioning pass: `CheckingForUpdate` status, release fetch, then
everything downstream of the fetch. -/
def provision (env : Env) (fs : FS) (cache : Option String) (binName : String) :
    ResolveOut :=
  withEvents [Event.setStatus .checkingForUpdate, Event.fetchRelease]
    (afterFetch env fs cache binName)

/-- The embedded `DhallLanguageServer::language_server_binary_path`:
user-PATH lookup first, then the in-memory cache (trusted only when its path
is still a regular file), then the provisioning pass. -/
def language_server_binary_path (env : Env) (fs : FS) (cache : Option String) :
    ResolveOut :=
  match env.whichResult with
  | some path => ⟨.ok path, [], cache, fs⟩
  | none =>
    match cache with
    | some path =>
      if fs.isFile path then ⟨.ok path, [], cache, fs⟩
      else provision env fs cache (binaryName env.platform)
    | none => provision env fs cache (binaryName env.platform)

/-- Substring containment, stated on the character lists of the strings. -/
def containsStr (s t : String) : Prop :=
  t.data <:+: s.data

/-! Concrete sample environments, used to evaluate the development on
explicit inputs. -/

/-- An empty filesystem. -/
def fs0 : FS := ⟨fun _ => false, []⟩

/-- A baseline environment: Linux on Aarch64 (an unsupported pair), no
user-PATH hit, a fetchable release, benign external outcomes. -/
def env0 : Env where
  platform := .linux
  arch := .aarch64
  whichResult := none
  releaseResult := .ok ⟨"1.0.0", []⟩
  downloadResult := .ok ()
  tarResult := .ok ⟨true, "ExitStatus(unix_wait_status(0))"⟩
  readDirError := none
  entryLoadError := fun _ => none
  removeFails := fun _ => false
  fsAfterDownload := id
  fsAfterTar := id

/-- A release shaped like the upstream dhall-haskell 1.42.2 release. -/
def rel1 : GithubRelease :=
  ⟨"1.42.2",
    [⟨"dhall-lsp-server-1.42.2-x86_64-linux.tar.bz2",
      "https://example.invalid/dhall-lsp-server.tar.bz2"⟩]⟩

/-- Linux/X86-64 environment with the sample release. -/
def envLinux : Env :=
  { env0 with arch := .x8664, releaseResult := .ok rel1 }

/-- Environment in which the user-PATH lookup succeeds. -/
def envWhich : Env :=
  { env0 with whichResult := some "/usr/local/bin/dhall-lsp-server" }

/-- Linux/X86-64 environment whose release has no matching asset. -/
def envNoAsset : Env :=
  { env0 with arch := .x8664, releaseResult := .ok ⟨"1.0.0", []⟩ }

/-- Linux/X86-64 environment where spawning tar fails. -/
def envTarSpawn : Env :=
  { envLinux with tarResult := .error "No such file or directory (os error 2)" }

/-- Linux/X86-64 environment where tar exits with a nonzero status. -/
def envTarExit : Env :=
  { envLinux with tarResult := .ok ⟨false, "ExitStatus(unix_wait_status(512))"⟩ }

/-- Filesystem that already holds the expected 1.42.2 binary, plus a stale
directory. -/
def fsBin : FS :=
  ⟨fun p => p == "dhall-haskell-1.42.2/bin/dhall-lsp-server",
    ["dhall-haskell-1.42.2", "dhall-haskell-1.41.0"]⟩

/-- Filesystem as the sample install leaves it: the fresh version directory
next to a stale one, with the binary in place. -/
def fsPost : FS :=
  ⟨fun p => p == "dhall-haskell-1.42.2/bin/dhall-lsp-server",
    ["dhall-haskell-1.41.0", "dhall-haskell-1.42.2"]⟩

/-- Linux/X86-64 environment whose download and extraction produce `fsPost`. -/
def envInstall : Env :=
  { envLinux with fsAfterDownload := fun fs => fs, fsAfterTar := fun _ => fsPost }

/-! Helper lemmas about the embedding. -/

theorem str_data_append (s t : String) : (s ++ t).data = s.data ++ t.data := rfl

theorem containsStr_intro (s t : String) (a b : List Char)
    (h : s.data = a ++ t.data ++ b) : containsStr s t :=
  ⟨a, b, h.symm⟩

theorem resolve_eq_provision (env : Env) (fs : FS) (cache : Option String)
    (hw : env.whichResult = none)
    (hc : ∀ p, cache = some p → fs.isFile p = false) :
    language_server_binary_path env fs cache =
      provision env fs cache (binaryName env.platform) := by
  unfold language_server_binary_path
  rw [hw]
  cases cache with
  | none => rfl
  | some p => simp [hc p rfl]

theorem sweep_result_ok (env : Env) (vd : String) :
    ∀ (l : List String) (fs : FS),
      (∀ e ∈ l, env.entryLoadError e = none) →
      (sweep env vd l fs).result = .ok () := by
  intro l
  induction l with
  | nil => intro fs _; rfl
  | cons e rest ih =>
    intro fs h
    have he : env.entryLoadError e = none := h e (by simp)
    by_cases hev : e = vd
    · simpa [sweep, he, if_pos hev] using ih fs fun x hx => h x (by simp [hx])
    · simpa [sweep, he, if_neg hev] using ih _ fun x hx => h x (by simp [hx])

theorem sweep_no_tar (env : Env) (vd : String) :
    ∀ (l : List String) (fs : FS) (d : String),
      Event.tar d ∉ (sweep env vd l fs).events := by
  intro l
  induction l with
  | nil => intro fs d h; cases h
  | cons e rest ih =>
    intro fs d
    cases he : env.entryLoadError e with
    | some msg => simp [sweep, he]
    | none =>
      by_cases hev : e = vd
      · simpa [sweep, he, if_pos hev] using ih fs d
      · simp [sweep, he, if_neg hev]
        exact ih _ d

theorem cleanupPass_no_tar (env : Env) (vd : String) (fs : FS) (d : String) :
    Event.tar d ∉ (cleanupPass env vd fs).events := by
  unfold cleanupPass
  cases h : env.readDirError with
  | some e => simp
  | none =>
    simp
    exact sweep_no_tar env vd fs.entries fs d

theorem finishInstall_no_tar (env : Env) (fs : FS) (cache : Option String)
    (bp vd d : String) :
    Event.tar d ∉ (finishInstall env fs cache bp vd).events := by
  have h := cleanupPass_no_tar env vd fs d
  unfold finishInstall
  rcases hc : cleanupPass env vd fs with ⟨r, evs, fs2⟩
  rw [hc] at h
  cases r with
  | error e => simpa using h
  | ok u => simpa using h

theorem filter_bne_of_not_mem (l : List String) (e : String) (h : e ∉ l) :
    (l.filter fun x => x != e) = l := by
  induction l with
  | nil => rfl
  | cons a rest ih =>
    have ha : (a != e) = true := by
      simp only [bne_iff_ne, ne_eq]
      rintro rfl
      exact h (by simp)
    rw [List.filter_cons, if_pos ha, ih fun hm => h (by simp [hm])]

theorem sweep_entries_exact (env : Env) (vd : String) :
    ∀ (l : List String) (fs : FS),
      l.Nodup →
      (∀ e ∈ l, env.entryLoadError e = none) →
      (∀ e ∈ l, e ≠ vd → env.removeFails e = false) →
      ((fs.entries = l ∧ vd ∈ l) ∨ (fs.entries = vd :: l ∧ vd ∉ l)) →
      (sweep env vd l fs).result = .ok () ∧ (sweep env vd l fs).fs.entries = [vd] := by
  intro l
  induction l with
  | nil =>
    intro fs _ _ _ hinv
    rcases hinv with ⟨_, hmem⟩ | ⟨hfs, _⟩
    · exact absurd hmem (List.not_mem_nil _)
    · exact ⟨rfl, by simpa [sweep] using hfs⟩
  | cons e rest ih =>
    intro fs hnd hload hrem hinv
    have he : env.entryLoadError e = none := hload e (by simp)
    have hndr : rest.Nodup := (List.nodup_cons.mp hnd).2
    have hner : e ∉ rest := (List.nodup_cons.mp hnd).1
    have hloadr : ∀ x ∈ rest, env.entryLoadError x = none :=
      fun x hx => hload x (by simp [hx])
    have hremr : ∀ x ∈ rest, x ≠ vd → env.removeFails x = false :=
      fun x hx => hrem x (by simp [hx])
    by_cases hev : e = vd
    · subst hev
      rcases hinv with ⟨hfs, _⟩ | ⟨_, hnmem⟩
      · simpa [sweep, he] using ih fs hndr hloadr hremr (Or.inr ⟨hfs, hner⟩)
      · exact absurd (by simp) hnmem
    · have hrf : env.removeFails e = false := hrem e (by simp) hev
      rcases hinv with ⟨hfs, hmem⟩ | ⟨hfs, hnmem⟩
      · have hvm : vd ∈ rest := by
          rcases List.mem_cons.mp hmem with h1 | h1
          · exact absurd h1.symm hev
          · exact h1
        have hent : (removeEffect fs e).entries = rest := by
          show (fs.entries.filter fun x => x != e) = rest
          rw [hfs, List.filter_cons, if_neg (by simp), filter_bne_of_not_mem rest e hner]
        simpa [sweep, he, hev, hrf] using
          ih (removeEffect fs e) hndr hloadr hremr (Or.inl ⟨hent, hvm⟩)
      · have hvne : vd ≠ e := fun h => hnmem (h ▸ List.mem_cons_self _ _)
        have hent : (removeEffect fs e).entries = vd :: rest := by
          show (fs.entries.filter fun x => x != e) = vd :: rest
          rw [hfs, List.filter_cons, if_pos (by simp [bne_iff_ne]; exact hvne),
            List.filter_cons, if_neg (by simp), filter_bne_of_not_mem rest e hner]
        have hnm2 : vd ∉ rest := fun hm => hnmem (List.mem_cons_of_mem e hm)
        simpa [sweep, he, hev, hrf] using
          ih (removeEffect fs e) hndr hloadr hremr (Or.inr ⟨hent, hnm2⟩)

theorem finishInstall_readDir_fatal (env : Env) (fs : FS) (cache : Option String)
    (bp vd msg : String) (h : env.readDirError = some msg) :
    finishInstall env fs cache bp vd =
      ⟨.error ("failed to list working directory " ++ msg), [Event.readDir], cache, fs⟩ := by
  simp [finishInstall, cleanupPass, h]

theorem finishInstall_ok (env : Env) (fs : FS) (cache : Option String)
    (bp vd : String) (hrd : env.readDirError = none)
    (hload : ∀ e ∈ fs.entries, env.entryLoadError e = none) :
    (finishInstall env fs cache bp vd).result = .ok bp ∧
    (finishInstall env fs cache bp vd).cache = some bp := by
  have hs := sweep_result_ok env vd fs.entries fs hload
  unfold finishInstall cleanupPass
  rw [hrd]
  rcases hsw : sweep env vd fs.entries fs with ⟨r, evs, fs2⟩
  rw [hsw] at hs
  simp only at hs
  subst hs
  exact ⟨rfl, rfl⟩

theorem finishInstall_entries (env : Env) (fs : FS) (cache : Option String)
    (bp vd : String) (hrd : env.readDirError = none)
    (hnd : fs.entries.Nodup)
    (hload : ∀ e ∈ fs.entries, env.entryLoadError e = none)
    (hrem : ∀ e ∈ fs.entries, e ≠ vd → env.removeFails e = false)
    (hmem : vd ∈ fs.entries) :
    (finishInstall env fs cache bp vd).result = .ok bp ∧
    (finishInstall env fs cache bp vd).fs.entries = [vd] := by
  have hs := sweep_entries_exact env vd fs.entries fs hnd hload hrem (Or.inl ⟨rfl, hmem⟩)
  unfold finishInstall cleanupPass
  rw [hrd]
  rcases hsw : sweep env vd fs.entries fs with ⟨r, evs, fs2⟩
  rw [hsw] at hs
  simp only at hs
  rcases hs with ⟨h1, h2⟩
  subst h1
  simpa using h2

theorem install_eq_finish (env : Env) (fs : FS) (cache : Option String)
    (bp vd dp : String) (dt : DownloadedFileType)
    (hd : env.downloadResult = .ok ())
    (htar : dt = .uncompressed → ∃ st, env.tarResult = .ok st ∧ st.success = true) :
    install env fs cache bp vd dp dt =
      withEvents (tarPre dt dp) (finishInstall env (installFS env fs dt) cache bp vd) := by
  cases dt with
  | zip =>
    simp [install, hd, installFS, tarPre, withEvents]
  | uncompressed =>
    obtain ⟨st, h1, h2⟩ := htar rfl
    simp [install, hd, h1, h2, installFS, tarPre, withEvents]

theorem install_download_fatal (env : Env) (fs : FS) (cache : Option String)
    (bp vd dp : String) (dt : DownloadedFileType) (e : String)
    (hd : env.downloadResult = .error e) :
    install env fs cache bp vd dp dt =
      ⟨.error ("failed to download file: " ++ e), [], cache, fs⟩ := by
  simp [install, hd]

theorem install_tar_spawn_fatal (env : Env) (fs : FS) (cache : Option String)
    (bp vd dp : String) (e : String)
    (hd : env.downloadResult = .ok ()) (ht : env.tarResult = .error e) :
    install env fs cache bp vd dp .uncompressed =
      ⟨.error ("failed to decompress " ++ dp ++ ": " ++ e),
        [Event.tar dp], cache, env.fsAfterDownload fs⟩ := by
  simp [install, hd, ht]

theorem install_tar_exit_fatal (env : Env) (fs : FS) (cache : Option String)
    (bp vd dp : String) (st : ExitStatus)
    (hd : env.downloadResult = .ok ()) (ht : env.tarResult = .ok st)
    (hs : st.success = false) :
    install env fs cache bp vd dp .uncompressed =
      ⟨.error ("failed to decompress " ++ dp ++ ": status " ++ st.debugRepr),
        [Event.tar dp], cache, env.fsAfterDownload fs⟩ := by
  simp [install, hd, ht, hs]

theorem afterFetch_fast (env : Env) (fs : FS) (cache : Option String)
    (binName : String) (r : GithubRelease) (sfx : String)
    (dt : DownloadedFileType) (asset : GithubReleaseAsset)
    (hr : env.releaseResult = .ok r)
    (hps : platformSuffix env.platform env.arch = some (sfx, dt))
    (hfind : findAsset r.assets sfx = some asset)
    (hfile : fs.isFile (versionDirOf r.version ++ "/bin/" ++ binName) = true) :
    afterFetch env fs cache binName =
      ⟨.ok (versionDirOf r.version ++ "/bin/" ++ binName), [],
        some (versionDirOf r.version ++ "/bin/" ++ binName), fs⟩ := by
  simp [afterFetch, hr, hps, hfind, hfile]

theorem afterFetch_install (env : Env) (fs : FS) (cache : Option String)
    (binName : String) (r : GithubRelease) (sfx : String)
    (dt : DownloadedFileType) (asset : GithubReleaseAsset)
    (hr : env.releaseResult = .ok r)
    (hps : platformSuffix env.platform env.arch = some (sfx, dt))
    (hfind : findAsset r.assets sfx = some asset)
    (hfile : fs.isFile (versionDirOf r.version ++ "/bin/" ++ binName) = false) :
    afterFetch env fs cache binName =
      withEvents
        [Event.setStatus .downloading,
          Event.download asset.download_url (versionDirOf r.version) dt]
        (install env fs cache (versionDirOf r.version ++ "/bin/" ++ binName)
          (versionDirOf r.version) (versionDirOf r.version ++ "/" ++ asset.name) dt) := by
  simp [afterFetch, hr, hps, hfind, hfile]

theorem afterFetch_fetch_fatal (env : Env) (fs : FS) (cache : Option String)
    (binName : String) (e : String) (hr : env.releaseResult = .error e) :
    afterFetch env fs cache binName = ⟨.error e, [], cache, fs⟩ := by
  simp [afterFetch, hr]

theorem afterFetch_unsupported (env : Env) (fs : FS) (cache : Option String)
    (binName : String) (r : GithubRelease)
    (hr : env.releaseResult = .ok r)
    (hps : platformSuffix env.platform env.arch = none) :
    afterFetch env fs cache binName =
      ⟨.error (unsupportedMsg env.platform env.arch), [], cache, fs⟩ := by
  simp [afterFetch, hr, hps]

theorem afterFetch_no_asset (env : Env) (fs : FS) (cache : Option String)
    (binName : String) (r : GithubRelease) (sfx : String) (dt : DownloadedFileType)
    (hr : env.releaseResult = .ok r)
    (hps : platformSuffix env.platform env.arch = some (sfx, dt))
    (hfind : findAsset r.assets sfx = none) :
    afterFetch env fs cache binName =
      ⟨.error ("no asset found matching dhall-lsp-server-*-" ++ sfx), [], cache, fs⟩ := by
  simp [afterFetch, hr, hps, hfind]

theorem finishInstall_cache_of_ok (env : Env) (fs : FS) (cache : Option String)
    (bp vd : String) (p : String)
    (h : (finishInstall env fs cache bp vd).result = .ok p) :
    (finishInstall env fs cache bp vd).cache = some p := by
  rcases hc : cleanupPass env vd fs with ⟨r, evs, fs2⟩
  cases r with
  | error e =>
    have heq : finishInstall env fs cache bp vd = ⟨.error e, evs, cache, fs2⟩ := by
      simp [finishInstall, hc]
    rw [heq] at h
    simp at h
  | ok u =>
    have heq : finishInstall env fs cache bp vd = ⟨.ok bp, evs, some bp, fs2⟩ := by
      simp [finishInstall, hc]
    rw [heq] at h ⊢
    simp at h ⊢
    exact h

theorem install_cache_of_ok (env : Env) (fs : FS) (cache : Option String)
    (bp vd dp : String) (dt : DownloadedFileType) (p : String)
    (h : (install env fs cache bp vd dp dt).result = .ok p) :
    (install env fs cache bp vd dp dt).cache = some p := by
  cases hd : env.downloadResult with
  | error e =>
    rw [install_download_fatal env fs cache bp vd dp dt e hd] at h
    simp at h
  | ok u =>
    cases u
    cases dt with
    | zip =>
      have heq : install env fs cache bp vd dp .zip =
          finishInstall env (env.fsAfterDownload fs) cache bp vd := by
        simp [install, hd]
      rw [heq] at h ⊢
      exact finishInstall_cache_of_ok env _ cache bp vd p h
    | uncompressed =>
      cases ht : env.tarResult with
      | error e =>
        rw [install_tar_spawn_fatal env fs cache bp vd dp e hd ht] at h
        simp at h
      | ok st =>
        by_cases hs : st.success = true
        · have heq : install env fs cache bp vd dp .uncompressed =
              withEvents [Event.tar dp]
                (finishInstall env (env.fsAfterTar (env.fsAfterDownload fs)) cache bp vd) := by
            simp [install, hd, ht, hs]
          rw [heq] at h ⊢
          simp only [withEvents] at h ⊢
          exact finishInstall_cache_of_ok env _ cache bp vd p h
        · have hs2 : st.success = false := by simpa using hs
          rw [install_tar_exit_fatal env fs cache bp vd dp st hd ht hs2] at h
          simp at h

theorem afterFetch_cache_of_ok (env : Env) (fs : FS) (cache : Option String)
    (binName : String) (p : String)
    (h : (afterFetch env fs cache binName).result = .ok p) :
    (afterFetch env fs cache binName).cache = some p := by
  cases hr : env.releaseResult with
  | error e =>
    rw [afterFetch_fetch_fatal env fs cache binName e hr] at h
    simp at h
  | ok r =>
    rcases hps : platformSuffix env.platform env.arch with _ | ⟨sfx, dt⟩
    · rw [afterFetch_unsupported env fs cache binName r hr hps] at h
      simp at h
    · cases hfind : findAsset r.assets sfx with
      | none =>
        rw [afterFetch_no_asset env fs cache binName r sfx dt hr hps hfind] at h
        simp at h
      | some asset =>
        by_cases hfile : fs.isFile (versionDirOf r.version ++ "/bin/" ++ binName) = true
        · rw [afterFetch_fast env fs cache binName r sfx dt asset hr hps hfind hfile] at h ⊢
          simp at h ⊢
          exact h
        · have hfile2 : fs.isFile (versionDirOf r.version ++ "/bin/" ++ binName) = false := by
            simpa using hfile
          rw [afterFetch_install env fs cache binName r sfx dt asset hr hps hfind hfile2] at h ⊢
          simp only [withEvents] at h ⊢
          exact install_cache_of_ok env fs cache _ _ _ dt p h

theorem provision_cache_of_ok (env : Env) (fs : FS) (cache : Option String)
    (binName : String) (p : String)
    (h : (provision env fs cache binName).result = .ok p) :
    (provision env fs cache binName).cache = some p := by
  simp only [provision, withEvents] at h ⊢
  exact afterFetch_cache_of_ok env fs cache binName p h

theorem resolve_which_eq (env : Env) (fs : FS) (cache : Option String) (p : String)
    (hw : env.whichResult = some p) :
    language_server_binary_path env fs cache = ⟨.ok p, [], cache, fs⟩ := by
  unfold language_server_binary_path
  rw [hw]

theorem resolve_cache_hit (env : Env) (fs : FS) (p : String)
    (hw : env.whichResult = none) (hf : fs.isFile p = true) :
    language_server_binary_path env fs (some p) = ⟨.ok p, [], some p, fs⟩ := by
  unfold language_server_binary_path
  rw [hw]
  simp [hf]

theorem resolve_second_after_provision (env : Env) (fs : FS) (cache : Option String)
    (p : String) (hw : env.whichResult = none)
    (hres : (provision env fs cache (binaryName env.platform)).result = .ok p)
    (hfile : ((provision env fs cache (binaryName env.platform)).fs).isFile p = true) :
    language_server_binary_path env (provision env fs cache (binaryName env.platform)).fs
      ((provision env fs cache (binaryName env.platform)).cache) =
      ⟨.ok p, [], some p, (provision env fs cache (binaryName env.platform)).fs⟩ := by
  rw [provision_cache_of_ok env fs cache (binaryName env.platform) p hres,
    resolve_cache_hit env _ p hw hfile]

/-! Claim theorems. -/

/-- C9: for a release with version "1.42.2" on platform (Linux, X86-64), the
computed version directory is dhall-haskell-1.42.2, the computed binary path
is dhall-haskell-1.42.2/bin/dhall-lsp-server, and the asset suffix sought is
x86_64-linux.tar.bz2 (with external decompression). -/
theorem c9_scenario_values :
    versionDirOf "1.42.2" = "dhall-haskell-1.42.2" ∧
    binaryPathOf "1.42.2" Os.linux = "dhall-haskell-1.42.2/bin/dhall-lsp-server" ∧
    platformSuffix Os.linux Architecture.x8664 =
      some ("x86_64-linux.tar.bz2", DownloadedFileType.uncompressed) :=
  ⟨rfl, rfl, rfl⟩

/-- C3: whenever the user-PATH lookup finds a binary, that path is returned
verbatim with an empty event trace (so no network call, no download, no
provisioning step), with the cache and filesystem untouched, regardless of
what the cache or filesystem holds. -/
theorem c3_which_short_circuit (env : Env) (fs : FS) (cache : Option String)
    (p : String) (hw : env.whichResult = some p) :
    language_server_binary_path env fs cache = ⟨.ok p, [], cache, fs⟩ :=
  resolve_which_eq env fs cache p hw

/-- Witness for C3 at a concrete environment in which `which` succeeds while
a managed copy also exists on disk. -/
theorem c3_which_short_circuit_witness :
    language_server_binary_path envWhich fsBin
        (some "dhall-haskell-1.42.2/bin/dhall-lsp-server") =
      ⟨.ok "/usr/local/bin/dhall-lsp-server", [],
        some "dhall-haskell-1.42.2/bin/dhall-lsp-server", fsBin⟩ :=
  c3_which_short_circuit envWhich fsBin
    (some "dhall-haskell-1.42.2/bin/dhall-lsp-server")
    "/usr/local/bin/dhall-lsp-server" rfl

/-- C2: the platform mapping selects exactly the documented suffix and
download kind for each supported pair, and the external tar process runs
exactly for the Uncompressed (tar.bz2) kind: it is invoked on the archive in
every completed-download Uncompressed install and never for the natively
unpacked Zip kind. -/
theorem c2_mapping_table :
    platformSuffix Os.mac Architecture.aarch64 =
      some ("aarch64-darwin.tar.bz2", DownloadedFileType.uncompressed) ∧
    platformSuffix Os.mac Architecture.x8664 =
      some ("x86_64-darwin.tar.bz2", DownloadedFileType.uncompressed) ∧
    platformSuffix Os.linux Architecture.x8664 =
      some ("x86_64-linux.tar.bz2", DownloadedFileType.uncompressed) ∧
    platformSuffix Os.windows Architecture.x8664 =
      some ("x86_64-windows.zip", DownloadedFileType.zip) ∧
    (∀ (env : Env) (fs : FS) (cache : Option String) (bp vd dp : String),
      env.downloadResult = .ok () →
      Event.tar dp ∈ (install env fs cache bp vd dp .uncompressed).events) ∧
    (∀ (env : Env) (fs : FS) (cache : Option String) (bp vd dp d : String),
      Event.tar d ∉ (install env fs cache bp vd dp .zip).events) := by
  refine ⟨rfl, rfl, rfl, rfl, ?_, ?_⟩
  · intro env fs cache bp vd dp hd
    cases ht : env.tarResult with
    | error e =>
      rw [install_tar_spawn_fatal env fs cache bp vd dp e hd ht]
      simp
    | ok st =>
      by_cases hs : st.success = true
      · have heq : install env fs cache bp vd dp .uncompressed =
            withEvents [Event.tar dp]
              (finishInstall env (env.fsAfterTar (env.fsAfterDownload fs)) cache bp vd) := by
          simp [install, hd, ht, hs]
        rw [heq]
        simp [withEvents]
      · have hs2 : st.success = false := by simpa using hs
        rw [install_tar_exit_fatal env fs cache bp vd dp st hd ht hs2]
        simp
  · intro env fs cache bp vd dp d
    cases hd : env.downloadResult with
    | error e =>
      rw [install_download_fatal env fs cache bp vd dp .zip e hd]
      simp
    | ok u =>
      cases u
      have heq : install env fs cache bp vd dp .zip =
          finishInstall env (env.fsAfterDownload fs) cache bp vd := by
        simp [install, hd]
      rw [heq]
      exact finishInstall_no_tar env _ cache bp vd d

/-- Witness for C2 at a concrete environment: tar runs on the archive for the
Uncompressed kind and never for the Zip kind. -/
theorem c2_mapping_table_witness :
    Event.tar "dhall-haskell-1.42.2/a.tar.bz2" ∈
      (install envLinux fs0 none "bp" "vd" "dhall-haskell-1.42.2/a.tar.bz2"
        .uncompressed).events ∧
    Event.tar "dhall-haskell-1.42.2/a.zip" ∉
      (install envLinux fs0 none "bp" "vd" "dhall-haskell-1.42.2/a.zip" .zip).events :=
  ⟨c2_mapping_table.2.2.2.2.1 envLinux fs0 none "bp" "vd"
      "dhall-haskell-1.42.2/a.tar.bz2" rfl,
    c2_mapping_table.2.2.2.2.2 envLinux fs0 none "bp" "vd"
      "dhall-haskell-1.42.2/a.zip" "dhall-haskell-1.42.2/a.zip"⟩

/-- C7: when the release has no asset whose name starts with the tool-name
prefix and ends with the computed suffix, resolution fails with an error
string that contains the exact suffix sought. -/
theorem c7_no_asset_error (env : Env) (fs : FS) (cache : Option String)
    (r : GithubRelease) (sfx : String) (dt : DownloadedFileType)
    (hw : env.whichResult = none)
    (hc : ∀ p, cache = some p → fs.isFile p = false)
    (hr : env.releaseResult = .ok r)
    (hps : platformSuffix env.platform env.arch = some (sfx, dt))
    (hfind : findAsset r.assets sfx = none) :
    (language_server_binary_path env fs cache).result =
      .error ("no asset found matching dhall-lsp-server-*-" ++ sfx) ∧
    containsStr ("no asset found matching dhall-lsp-server-*-" ++ sfx) sfx := by
  constructor
  · rw [resolve_eq_provision env fs cache hw hc, provision,
      afterFetch_no_asset env fs cache (binaryName env.platform) r sfx dt hr hps hfind]
    rfl
  · exact containsStr_intro _ _ "no asset found matching dhall-lsp-server-*-".data []
      (by simp [str_data_append])

/-- Witness for C7 at a concrete environment whose release has no assets. -/
theorem c7_no_asset_error_witness :
    (language_server_binary_path envNoAsset fs0 none).result =
      .error ("no asset found matching dhall-lsp-server-*-" ++ "x86_64-linux.tar.bz2") ∧
    containsStr ("no asset found matching dhall-lsp-server-*-" ++ "x86_64-linux.tar.bz2")
      "x86_64-linux.tar.bz2" :=
  c7_no_asset_error envNoAsset fs0 none ⟨"1.0.0", []⟩ "x86_64-linux.tar.bz2"
    .uncompressed rfl (fun _ hp => nomatch hp) rfl rfl rfl

/-- C1 counterexample: on the unsupported pair (Linux, Aarch64), with the
user-PATH lookup failing, no cache, and a fetchable release, resolution does
fail with the unsupported-platform error, but the release-metadata fetch HAS
occurred by then: the event trace of the failing call contains the fetch, so
the failure does not happen before the network call. -/
theorem c1_fetch_precedes_unsupported_check_cex :
    (language_server_binary_path env0 fs0 none).result =
      .error "unsupported platform/arch combination: Linux/Aarch64" ∧
    Event.fetchRelease ∈ (language_server_binary_path env0 fs0 none).events := by
  constructor
  · rfl
  · have h : (language_server_binary_path env0 fs0 none).events =
        [Event.setStatus .checkingForUpdate, Event.fetchRelease] := rfl
    rw [h]
    simp

/-- C1 (amended): for every unsupported (OS, architecture) pair, resolution
(once it reaches the provisioning pass and the release fetch succeeds) fails
with an error message containing both the OS and the architecture values;
however the release-metadata fetch is performed before the platform check, so
exactly one network fetch occurs before the failure. -/
theorem c1_unsupported_error_amended (env : Env) (fs : FS) (cache : Option String)
    (r : GithubRelease)
    (hw : env.whichResult = none)
    (hc : ∀ p, cache = some p → fs.isFile p = false)
    (hr : env.releaseResult = .ok r)
    (hps : platformSuffix env.platform env.arch = none) :
    (language_server_binary_path env fs cache).result =
      .error (unsupportedMsg env.platform env.arch) ∧
    containsStr (unsupportedMsg env.platform env.arch) (osDebug env.platform) ∧
    containsStr (unsupportedMsg env.platform env.arch) (archDebug env.arch) ∧
    (language_server_binary_path env fs cache).events =
      [Event.setStatus .checkingForUpdate, Event.fetchRelease] := by
  refine ⟨?_, ?_, ?_, ?_⟩
  · rw [resolve_eq_provision env fs cache hw hc, provision,
      afterFetch_unsupported env fs cache (binaryName env.platform) r hr hps]
    rfl
  · exact containsStr_intro _ _ "unsupported platform/arch combination: ".data
      ("/" ++ archDebug env.arch).data (by simp [unsupportedMsg, str_data_append])
  · exact containsStr_intro _ _
      ("unsupported platform/arch combination: " ++ osDebug env.platform ++ "/").data []
      (by simp [unsupportedMsg, str_data_append])
  · rw [resolve_eq_provision env fs cache hw hc, provision,
      afterFetch_unsupported env fs cache (binaryName env.platform) r hr hps]
    rfl

/-- Witness for the amended C1 on the concrete unsupported pair
(Linux, Aarch64). -/
theorem c1_unsupported_error_amended_witness :
    (language_server_binary_path env0 fs0 none).result =
      .error (unsupportedMsg Os.linux Architecture.aarch64) ∧
    containsStr (unsupportedMsg Os.linux Architecture.aarch64) (osDebug Os.linux) ∧
    containsStr (unsupportedMsg Os.linux Architecture.aarch64)
      (archDebug Architecture.aarch64) ∧
    (language_server_binary_path env0 fs0 none).events =
      [Event.setStatus .checkingForUpdate, Event.fetchRelease] :=
  c1_unsupported_error_amended env0 fs0 none ⟨"1.0.0", []⟩ rfl
    (fun _ hp => nomatch hp) rfl rfl

/-- C6: when the user-PATH lookup fails and the cached path no longer names
a regular file, the call does not short-circuit on the cache: it is exactly
the provisioning pass, whose trace starts with the CheckingForUpdate status
and the release fetch (discovery restarts). -/
theorem c6_stale_cache_reprovisions (env : Env) (fs : FS) (p : String)
    (hw : env.whichResult = none) (hf : fs.isFile p = false) :
    language_server_binary_path env fs (some p) =
      provision env fs (some p) (binaryName env.platform) ∧
    ∃ rest, (language_server_binary_path env fs (some p)).events =
      Event.setStatus .checkingForUpdate :: Event.fetchRelease :: rest := by
  have h := resolve_eq_provision env fs (some p) hw fun q hq => by
    cases hq; exact hf
  refine ⟨h, ⟨(afterFetch env fs (some p) (binaryName env.platform)).events, ?_⟩⟩
  rw [h, provision]
  rfl

/-- Witness for C6: a concrete stale cached path is not returned; the call
becomes the provisioning pass. -/
theorem c6_stale_cache_reprovisions_witness :
    language_server_binary_path env0 fs0 (some "dhall-haskell-1.41.0/bin/dhall-lsp-server") =
      provision env0 fs0 (some "dhall-haskell-1.41.0/bin/dhall-lsp-server")
        (binaryName env0.platform) ∧
    ∃ rest,
      (language_server_binary_path env0 fs0
          (some "dhall-haskell-1.41.0/bin/dhall-lsp-server")).events =
        Event.setStatus .checkingForUpdate :: Event.fetchRelease :: rest :=
  c6_stale_cache_reprovisions env0 fs0 "dhall-haskell-1.41.0/bin/dhall-lsp-server"
    rfl rfl

/-- C10: when the expected binary path already exists as a regular file at
provisioning time, the cleanup sweep is skipped entirely: the call returns
that path with only the status and fetch events (no directory listing, no
removals) and leaves the filesystem — in particular any stale version
directories — untouched. -/
theorem c10_skip_cleanup_when_binary_exists (env : Env) (fs : FS)
    (cache : Option String) (r : GithubRelease) (sfx : String)
    (dt : DownloadedFileType) (asset : GithubReleaseAsset)
    (hw : env.whichResult = none)
    (hc : ∀ p, cache = some p → fs.isFile p = false)
    (hr : env.releaseResult = .ok r)
    (hps : platformSuffix env.platform env.arch = some (sfx, dt))
    (hfind : findAsset r.assets sfx = some asset)
    (hfile : fs.isFile (binaryPathOf r.version env.platform) = true) :
    language_server_binary_path env fs cache =
      ⟨.ok (binaryPathOf r.version env.platform),
        [Event.setStatus .checkingForUpdate, Event.fetchRelease],
        some (binaryPathOf r.version env.platform), fs⟩ ∧
    Event.readDir ∉ (language_server_binary_path env fs cache).events ∧
    (∀ e, Event.removeDirAll e ∉ (language_server_binary_path env fs cache).events) ∧
    ((language_server_binary_path env fs cache).fs).entries = fs.entries := by
  have h : language_server_binary_path env fs cache =
      ⟨.ok (binaryPathOf r.version env.platform),
        [Event.setStatus .checkingForUpdate, Event.fetchRelease],
        some (binaryPathOf r.version env.platform), fs⟩ := by
    rw [resolve_eq_provision env fs cache hw hc, provision,
      afterFetch_fast env fs cache (binaryName env.platform) r sfx dt asset hr hps
        hfind hfile]
    rfl
  refine ⟨h, ?_, ?_, ?_⟩
  · rw [h]; simp
  · intro e; rw [h]; simp
  · rw [h]

/-- Witness for C10: with the 1.42.2 binary already on disk next to a stale
version directory, the stale directory survives and no sweep happens. -/
theorem c10_skip_cleanup_when_binary_exists_witness :
    language_server_binary_path envLinux fsBin none =
      ⟨.ok (binaryPathOf rel1.version envLinux.platform),
        [Event.setStatus .checkingForUpdate, Event.fetchRelease],
        some (binaryPathOf rel1.version envLinux.platform), fsBin⟩ ∧
    Event.readDir ∉ (language_server_binary_path envLinux fsBin none).events ∧
    (∀ e, Event.removeDirAll e ∉ (language_server_binary_path envLinux fsBin none).events) ∧
    ((language_server_binary_path envLinux fsBin none).fs).entries = fsBin.entries :=
  c10_skip_cleanup_when_binary_exists envLinux fsBin none rel1 "x86_64-linux.tar.bz2"
    .uncompressed ⟨"dhall-lsp-server-1.42.2-x86_64-linux.tar.bz2",
      "https://example.invalid/dhall-lsp-server.tar.bz2"⟩
    rfl (fun _ hp => nomatch hp) rfl rfl (by decide) (by decide)

/-- C4: (a) if at provisioning time the expected binary path already exists
as a regular file, no download and no decompression happens — the trace is
just the status and fetch events — and that path is returned; (b) a second
resolution call run on the state a successful call left behind (no
intervening filesystem changes, so the returned path is still a regular file
whenever the install actually put the binary there) returns the same path
with an empty trace: zero release fetches and zero downloads. -/
theorem c4_existing_binary_idempotent :
    (∀ (env : Env) (fs : FS) (cache : Option String) (r : GithubRelease)
        (sfx : String) (dt : DownloadedFileType) (asset : GithubReleaseAsset),
      env.whichResult = none →
      (∀ p, cache = some p → fs.isFile p = false) →
      env.releaseResult = .ok r →
      platformSuffix env.platform env.arch = some (sfx, dt) →
      findAsset r.assets sfx = some asset →
      fs.isFile (binaryPathOf r.version env.platform) = true →
      (language_server_binary_path env fs cache).result =
        .ok (binaryPathOf r.version env.platform) ∧
      (language_server_binary_path env fs cache).events =
        [Event.setStatus .checkingForUpdate, Event.fetchRelease]) ∧
    (∀ (env : Env) (fs : FS) (cache : Option String) (p : String),
      (language_server_binary_path env fs cache).result = .ok p →
      ((language_server_binary_path env fs cache).fs).isFile p = true →
      (language_server_binary_path env ((language_server_binary_path env fs cache).fs)
          ((language_server_binary_path env fs cache).cache)).result = .ok p ∧
      (language_server_binary_path env ((language_server_binary_path env fs cache).fs)
          ((language_server_binary_path env fs cache).cache)).events = []) := by
  constructor
  · intro env fs cache r sfx dt asset hw hc hr hps hfind hfile
    have h : language_server_binary_path env fs cache =
        ⟨.ok (binaryPathOf r.version env.platform),
          [Event.setStatus .checkingForUpdate, Event.fetchRelease],
          some (binaryPathOf r.version env.platform), fs⟩ := by
      rw [resolve_eq_provision env fs cache hw hc, provision,
        afterFetch_fast env fs cache (binaryName env.platform) r sfx dt asset hr hps
          hfind hfile]
      rfl
    rw [h]
    exact ⟨rfl, rfl⟩
  · intro env fs cache p hres hfile
    cases hw : env.whichResult with
    | some q =>
      rw [resolve_which_eq env fs cache q hw] at hres hfile ⊢
      simp only at hres hfile ⊢
      injection hres with hqp
      subst hqp
      rw [resolve_which_eq env fs cache q hw]
      exact ⟨rfl, rfl⟩
    | none =>
      cases cache with
      | some q =>
        by_cases hf : fs.isFile q = true
        · rw [resolve_cache_hit env fs q hw hf] at hres hfile ⊢
          simp only at hres hfile ⊢
          injection hres with hqp
          subst hqp
          rw [resolve_cache_hit env fs q hw hf]
          exact ⟨rfl, rfl⟩
        · have hf2 : fs.isFile q = false := by simpa using hf
          have hp := resolve_eq_provision env fs (some q) hw fun x hx => by
            cases hx; exact hf2
          rw [hp] at hres hfile ⊢
          rw [resolve_second_after_provision env fs (some q) p hw hres hfile]
          exact ⟨rfl, rfl⟩
      | none =>
        have hp := resolve_eq_provision env fs none hw fun x hx => nomatch hx
        rw [hp] at hres hfile ⊢
        rw [resolve_second_after_provision env fs none p hw hres hfile]
        exact ⟨rfl, rfl⟩

/-- Witness for C4: part (a) at the concrete already-provisioned state, and
part (b) chaining a first call on that state into a second call. -/
theorem c4_existing_binary_idempotent_witness :
    ((language_server_binary_path envLinux fsBin none).result =
        .ok (binaryPathOf rel1.version envLinux.platform) ∧
      (language_server_binary_path envLinux fsBin none).events =
        [Event.setStatus .checkingForUpdate, Event.fetchRelease]) ∧
    ((language_server_binary_path envLinux
          ((language_server_binary_path envLinux fsBin none).fs)
          ((language_server_binary_path envLinux fsBin none).cache)).result =
        .ok "dhall-haskell-1.42.2/bin/dhall-lsp-server" ∧
      (language_server_binary_path envLinux
          ((language_server_binary_path envLinux fsBin none).fs)
          ((language_server_binary_path envLinux fsBin none).cache)).events = []) :=
  ⟨c4_existing_binary_idempotent.1 envLinux fsBin none rel1 "x86_64-linux.tar.bz2"
      .uncompressed ⟨"dhall-lsp-server-1.42.2-x86_64-linux.tar.bz2",
        "https://example.invalid/dhall-lsp-server.tar.bz2"⟩
      rfl (fun _ hp => nomatch hp) rfl rfl (by decide) (by decide),
    c4_existing_binary_idempotent.2 envLinux fsBin none
      "dhall-haskell-1.42.2/bin/dhall-lsp-server" rfl (by decide)⟩

/-- C5: for a provisioning pass that downloads and installs (download and any
required decompression succeed), (a) when the directory listing and the entry
loads succeed the pass succeeds regardless of individual removal failures
(they are swallowed), and when moreover every removal succeeds, exactly the
version directory remains in the working directory afterwards; (b) a failure
to list the working directory is fatal and propagated. -/
theorem c5_cleanup_invariant (env : Env) (fs : FS) (cache : Option String)
    (r : GithubRelease) (sfx : String) (dt : DownloadedFileType)
    (asset : GithubReleaseAsset)
    (hw : env.whichResult = none)
    (hc : ∀ p, cache = some p → fs.isFile p = false)
    (hr : env.releaseResult = .ok r)
    (hps : platformSuffix env.platform env.arch = some (sfx, dt))
    (hfind : findAsset r.assets sfx = some asset)
    (hfile : fs.isFile (binaryPathOf r.version env.platform) = false)
    (hd : env.downloadResult = .ok ())
    (htar : dt = .uncompressed → ∃ st, env.tarResult = .ok st ∧ st.success = true) :
    (env.readDirError = none →
      (∀ e ∈ (installFS env fs dt).entries, env.entryLoadError e = none) →
      ((language_server_binary_path env fs cache).result =
          .ok (binaryPathOf r.version env.platform) ∧
        ((∀ e ∈ (installFS env fs dt).entries,
            e ≠ versionDirOf r.version → env.removeFails e = false) →
          (installFS env fs dt).entries.Nodup →
          versionDirOf r.version ∈ (installFS env fs dt).entries →
          ((language_server_binary_path env fs cache).fs).entries =
            [versionDirOf r.version]))) ∧
    (∀ msg, env.readDirError = some msg →
      (language_server_binary_path env fs cache).result =
        .error ("failed to list working directory " ++ msg)) := by
  have h2 := afterFetch_install env fs cache (binaryName env.platform) r sfx dt asset
    hr hps hfind hfile
  have h3 := install_eq_finish env fs cache
    (versionDirOf r.version ++ "/bin/" ++ binaryName env.platform)
    (versionDirOf r.version) (versionDirOf r.version ++ "/" ++ asset.name) dt hd htar
  have hres : (language_server_binary_path env fs cache).result =
      (finishInstall env (installFS env fs dt) cache
        (versionDirOf r.version ++ "/bin/" ++ binaryName env.platform)
        (versionDirOf r.version)).result := by
    rw [resolve_eq_provision env fs cache hw hc, provision, h2, h3]
    rfl
  have hfs2 : (language_server_binary_path env fs cache).fs =
      (finishInstall env (installFS env fs dt) cache
        (versionDirOf r.version ++ "/bin/" ++ binaryName env.platform)
        (versionDirOf r.version)).fs := by
    rw [resolve_eq_provision env fs cache hw hc, provision, h2, h3]
    rfl
  constructor
  · intro hrd hload
    constructor
    · rw [hres]
      exact (finishInstall_ok env (installFS env fs dt) cache
        (versionDirOf r.version ++ "/bin/" ++ binaryName env.platform)
        (versionDirOf r.version) hrd hload).1
    · intro hrem hnd hmem
      rw [hfs2]
      exact (finishInstall_entries env (installFS env fs dt) cache
        (versionDirOf r.version ++ "/bin/" ++ binaryName env.platform)
        (versionDirOf r.version) hrd hnd hload hrem hmem).2
  · intro msg hmsg
    rw [hres, finishInstall_readDir_fatal env (installFS env fs dt) cache
      (versionDirOf r.version ++ "/bin/" ++ binaryName env.platform)
      (versionDirOf r.version) msg hmsg]

/-- Witness for C5: a concrete install whose extraction yields the fresh
version directory next to a stale one; after the pass only the version
directory remains and the call returns the binary path. -/
theorem c5_cleanup_invariant_witness :
    (language_server_binary_path envInstall fs0 none).result =
      .ok (binaryPathOf rel1.version envInstall.platform) ∧
    ((language_server_binary_path envInstall fs0 none).fs).entries =
      [versionDirOf rel1.version] := by
  have h := c5_cleanup_invariant envInstall fs0 none rel1 "x86_64-linux.tar.bz2"
    .uncompressed ⟨"dhall-lsp-server-1.42.2-x86_64-linux.tar.bz2",
      "https://example.invalid/dhall-lsp-server.tar.bz2"⟩
    rfl (fun _ hp => nomatch hp) rfl rfl (by decide) rfl rfl
    (fun _ => ⟨⟨true, "ExitStatus(unix_wait_status(0))"⟩, rfl, rfl⟩)
  have h1 := h.1 rfl (by decide)
  exact ⟨h1.1, h1.2 (by decide) (by decide) (by decide)⟩

/-- C8: in a provisioning pass with external decompression, a tar launch
failure is fatal with an error naming the archive path and the cause, and a
nonzero tar exit status is fatal with an error naming the archive path and
the exit status. -/
theorem c8_decompress_failure_error (env : Env) (fs : FS) (cache : Option String)
    (r : GithubRelease) (sfx : String) (asset : GithubReleaseAsset)
    (hw : env.whichResult = none)
    (hc : ∀ p, cache = some p → fs.isFile p = false)
    (hr : env.releaseResult = .ok r)
    (hps : platformSuffix env.platform env.arch = some (sfx, .uncompressed))
    (hfind : findAsset r.assets sfx = some asset)
    (hfile : fs.isFile (binaryPathOf r.version env.platform) = false)
    (hd : env.downloadResult = .ok ()) :
    (∀ e, env.tarResult = .error e →
      (language_server_binary_path env fs cache).result =
        .error ("failed to decompress " ++ (versionDirOf r.version ++ "/" ++ asset.name)
          ++ ": " ++ e) ∧
      containsStr ("failed to decompress " ++ (versionDirOf r.version ++ "/" ++ asset.name)
          ++ ": " ++ e)
        (versionDirOf r.version ++ "/" ++ asset.name)) ∧
    (∀ st, env.tarResult = .ok st → st.success = false →
      (language_server_binary_path env fs cache).result =
        .error ("failed to decompress " ++ (versionDirOf r.version ++ "/" ++ asset.name)
          ++ ": status " ++ st.debugRepr) ∧
      containsStr ("failed to decompress " ++ (versionDirOf r.version ++ "/" ++ asset.name)
          ++ ": status " ++ st.debugRepr)
        (versionDirOf r.version ++ "/" ++ asset.name) ∧
      containsStr ("failed to decompress " ++ (versionDirOf r.version ++ "/" ++ asset.name)
          ++ ": status " ++ st.debugRepr)
        st.debugRepr) := by
  have hred : language_server_binary_path env fs cache =
      withEvents [Event.setStatus .checkingForUpdate, Event.fetchRelease]
        (withEvents [Event.setStatus .downloading,
            Event.download asset.download_url (versionDirOf r.version) .uncompressed]
          (install env fs cache
            (versionDirOf r.version ++ "/bin/" ++ binaryName env.platform)
            (versionDirOf r.version) (versionDirOf r.version ++ "/" ++ asset.name)
            .uncompressed)) := by
    rw [resolve_eq_provision env fs cache hw hc, provision,
      afterFetch_install env fs cache (binaryName env.platform) r sfx .uncompressed
        asset hr hps hfind hfile]
  constructor
  · intro e ht
    constructor
    · rw [hred, install_tar_spawn_fatal env fs cache
        (versionDirOf r.version ++ "/bin/" ++ binaryName env.platform)
        (versionDirOf r.version) (versionDirOf r.version ++ "/" ++ asset.name) e hd ht]
      rfl
    · exact containsStr_intro _ _ "failed to decompress ".data (": " ++ e).data
        (by simp [str_data_append])
  · intro st ht hs
    refine ⟨?_, ?_, ?_⟩
    · rw [hred, install_tar_exit_fatal env fs cache
        (versionDirOf r.version ++ "/bin/" ++ binaryName env.platform)
        (versionDirOf r.version) (versionDirOf r.version ++ "/" ++ asset.name) st hd ht hs]
      rfl
    · exact containsStr_intro _ _ "failed to decompress ".data
        (": status " ++ st.debugRepr).data (by simp [str_data_append])
    · exact containsStr_intro _ _
        ("failed to decompress " ++ (versionDirOf r.version ++ "/" ++ asset.name)
          ++ ": status ").data [] (by simp [str_data_append])

/-- Witness for C8: a concrete spawn failure and a concrete nonzero exit. -/
theorem c8_decompress_failure_error_witness :
    (language_server_binary_path envTarSpawn fs0 none).result =
      .error ("failed to decompress "
        ++ (versionDirOf rel1.version ++ "/" ++ "dhall-lsp-server-1.42.2-x86_64-linux.tar.bz2")
        ++ ": " ++ "No such file or directory (os error 2)") ∧
    (language_server_binary_path envTarExit fs0 none).result =
      .error ("failed to decompress "
        ++ (versionDirOf rel1.version ++ "/" ++ "dhall-lsp-server-1.42.2-x86_64-linux.tar.bz2")
        ++ ": status " ++ "ExitStatus(unix_wait_status(512))") :=
  ⟨((c8_decompress_failure_error envTarSpawn fs0 none rel1 "x86_64-linux.tar.bz2"
      ⟨"dhall-lsp-server-1.42.2-x86_64-linux.tar.bz2",
        "https://example.invalid/dhall-lsp-server.tar.bz2"⟩
      rfl (fun _ hp => nomatch hp) rfl rfl (by decide) rfl rfl).1
      "No such file or directory (os error 2)" rfl).1,
    ((c8_decompress_failure_error envTarExit fs0 none rel1 "x86_64-linux.tar.bz2"
      ⟨"dhall-lsp-server-1.42.2-x86_64-linux.tar.bz2",
        "https://example.invalid/dhall-lsp-server.tar.bz2"⟩
      rfl (fun _ hp => nomatch hp) rfl rfl (by decide) rfl rfl).2
      ⟨false, "ExitStatus(unix_wait_status(512))"⟩ rfl rfl).1⟩
